import Mathlib

/-!
Verification of the `balancer` package: a shallow embedding of
`balancer.go` and `dialer.go`, with theorems about the candidate
selector (`randomDialer`), the dial orchestration (`Balancer.Dial`),
and the per-dialer health-monitor loop started by `dialer.start`.

Durations are modelled in nanoseconds, matching Go `time.Duration`
(overflow is irrelevant at the magnitudes the claims are about).
Goroutine identity (`*dialer` pointer equality) is modelled by a
numeric `id` field, distinct per wrapped dialer.
-/

def millisecond : Nat := 1000000

def second : Nat := 1000 * millisecond

def minute : Nat := 60 * second

def hour : Nat := 60 * minute

/-- Source constant `longDuration = 1000000 * time.Hour` (`dialer.go`). -/
def longDuration : Nat := 1000000 * hour

/-- Source constant `maxCheckTimeout = 1 * time.Minute` (`dialer.go`).
Declared in the source but never read anywhere else in the package. -/
def maxCheckTimeout : Nat := 1 * minute

/-- State owned by the goroutine launched by `dialer.start`: the shared
`active` flag, the local `consecCheckFailures` counter, and the duration
the probe timer was last `Reset` to. -/
structure monitorState where
  active : Bool
  consecCheckFailures : Nat
  timer : Nat
deriving DecidableEq, Repr

/-- Initialisation in `dialer.start`: `d.active = 1`,
`consecCheckFailures := 0`, `timer := time.NewTimer(longDuration)`. -/
def initialMonitorState : monitorState :=
  { active := true, consecCheckFailures := 0, timer := longDuration }

/-- The reset performed at the top of each loop iteration in `dialer.start`:
while inactive, `timer.Reset(time.Duration(n*n) * 100 * time.Millisecond)`
where `n = consecCheckFailures`; while active the timer is left untouched. -/
def loopTop (s : monitorState) : monitorState :=
  if s.active then s
  else { s with timer := s.consecCheckFailures * s.consecCheckFailures * 100 * millisecond }

/-- One wakeup of the monitor goroutine: a value received on `d.errCh`, the
channel being closed, or the probe timer firing with the result of
`d.Check()`. -/
inductive monitorEvent where
  | errSignal
  | channelClosed
  | timerFired (checkOk : Bool)
deriving DecidableEq, Repr

/-- The `select` body in `dialer.start`: a closed channel returns from the
goroutine; an error stores `active := 0`; a fired timer runs the check and
either stores `active := 1` and resets the timer to `longDuration`, or
increments `consecCheckFailures`. -/
def monitorReact (s : monitorState) (e : monitorEvent) : Option monitorState :=
  match e with
  | .channelClosed => none
  | .errSignal => some { s with active := false }
  | .timerFired ok =>
    if ok then some { s with active := true, timer := longDuration }
    else some { s with consecCheckFailures := s.consecCheckFailures + 1 }

/-- One full loop iteration of the monitor goroutine: handle the event,
then perform the next iteration's top-of-loop timer reset (`none` means
the goroutine returned). -/
def monitorStep (s : monitorState) (e : monitorEvent) : Option monitorState :=
  (monitorReact s e).map loopTop

/-- C2: the claim says the delay before the next probe after `n`
consecutive failures is `min(60s, n^2 * 100ms)` and never exceeds one
minute. The code computes `n^2 * 100ms` and never applies the declared
`maxCheckTimeout` cap: at `n = 25` the scheduled delay is 62.5s > 1min,
contradicting the source's own doc comment ("capped at 1 minute") and its
unused `maxCheckTimeout` declaration. -/
theorem c2_backoff_exceeds_cap :
    (loopTop { active := false, consecCheckFailures := 25, timer := longDuration }).timer
        = 62500 * millisecond
      ∧ maxCheckTimeout = 60000 * millisecond
      ∧ maxCheckTimeout
          < (loopTop { active := false, consecCheckFailures := 25, timer := longDuration }).timer
      ∧ (loopTop { active := false, consecCheckFailures := 25, timer := longDuration }).timer
          ≠ min maxCheckTimeout (25 * 25 * 100 * millisecond) := by
  decide

/-- C3 counterexample: from INACTIVE(3), a successful probe reactivates the
dialer and resets the timer to the long duration, but leaves
`consecCheckFailures` at 3; the claim says the counter is reset to 0. -/
theorem c3_success_keeps_counter :
    monitorStep { active := false, consecCheckFailures := 3, timer := 900 * millisecond }
        (.timerFired true)
      = some { active := true, consecCheckFailures := 3, timer := longDuration }
      ∧ (3 : Nat) ≠ 0 := by
  decide

/-- C3 amended: a successful probe from INACTIVE(n) yields ACTIVE with the
probe timer reset to the long duration, but the consecutive-failure counter
keeps its old value `n`; hence a later failure signal schedules the next
probe after `n^2 * 100ms`, restarting backoff from the old counter value
rather than from 1. -/
theorem c3_amended_success_transition (n t : Nat) :
    monitorStep { active := false, consecCheckFailures := n, timer := t } (.timerFired true)
        = some { active := true, consecCheckFailures := n, timer := longDuration }
      ∧ monitorStep { active := true, consecCheckFailures := n, timer := longDuration } .errSignal
        = some { active := false, consecCheckFailures := n,
                 timer := n * n * 100 * millisecond } := by
  constructor <;> simp [monitorStep, monitorReact, loopTop]

/-- C4 counterexample: in the initial ACTIVE state (failure count 0), a
failure signal leaves the counter at 0 — not 1 as the claim states — and
schedules the next probe after `0^2 * 100ms = 0`, not `100ms`. -/
theorem c4_signal_does_not_increment :
    monitorStep initialMonitorState .errSignal
      = some { active := false, consecCheckFailures := 0, timer := 0 }
      ∧ (0 : Nat) ≠ 1 ∧ (0 : Nat) ≠ 100 * millisecond := by
  decide

/-- C4 amended: a failure signal only clears the `active` flag — the
consecutive-failure counter is unchanged and the next probe is scheduled
after `n^2 * 100ms` with the current `n` (immediately when `n = 0`); the
counter is incremented only by a failed probe, which moves INACTIVE(n) to
INACTIVE(n+1) with the next probe after `(n+1)^2 * 100ms`. -/
theorem c4_amended_failure_transitions (s : monitorState) :
    monitorStep s .errSignal
        = some { active := false, consecCheckFailures := s.consecCheckFailures,
                 timer := s.consecCheckFailures * s.consecCheckFailures * 100 * millisecond }
      ∧ (s.active = false →
          monitorStep s (.timerFired false)
            = some { active := false, consecCheckFailures := s.consecCheckFailures + 1,
                     timer := (s.consecCheckFailures + 1) * (s.consecCheckFailures + 1)
                       * 100 * millisecond }) := by
  constructor
  · simp [monitorStep, monitorReact, loopTop]
  · intro h
    simp [monitorStep, monitorReact, loopTop, h]

theorem c4_amended_failure_transitions_witness :
    monitorStep { active := false, consecCheckFailures := 2, timer := 400 * millisecond }
        (.timerFired false)
      = some { active := false, consecCheckFailures := 3, timer := 900 * millisecond } :=
  (c4_amended_failure_transitions
    { active := false, consecCheckFailures := 2, timer := 400 * millisecond }).2 rfl

/-- Caller-supplied configuration (`Dialer` in `dialer.go`); its `Dial`
and `Check` functions are modelled as oracles where the claims need them. -/
structure Dialer where
  Weight : Int
  QOS : Int
deriving DecidableEq, Repr

/-- A wrapped dialer as the selector sees it (`dialer` in `dialer.go`):
the configuration plus the monitor-owned `active` flag; `id` models the
pointer identity of the `*dialer`. -/
structure dialer where
  id : Nat
  Weight : Int
  QOS : Int
  active : Bool
deriving DecidableEq, Repr

/-- `dialer.isactive`. -/
def dialer.isactive (d : dialer) : Bool := d.active

/-- `sort.Sort(byQOS(dialers))`: sort ascending by `QOS` (the embedding
fixes insertion sort; the Go sort is an arbitrary sort for the same
`Less` comparator). -/
def sortByQOS (dialers : List dialer) : List dialer :=
  List.insertionSort (fun a b => a.QOS ≤ b.QOS) dialers

/-- The filtering loop of `randomDialer`: `n` is `len(dialers)` of the
sorted list, `i` the current index, `filtered` the accumulator. Inactive
dialers are skipped; a dialer with `QOS >= targetQOS` is kept; otherwise
it is kept only when it is the last element of the sorted list and
nothing was kept yet. -/
def filterLoop (n : Nat) (targetQOS : Int) : List dialer → Nat → List dialer → List dialer
  | [], _, filtered => filtered
  | d :: rest, i, filtered =>
    if !d.isactive then filterLoop n targetQOS rest (i + 1) filtered
    else if d.QOS ≥ targetQOS then filterLoop n targetQOS rest (i + 1) (filtered ++ [d])
    else if i == n - 1 && filtered.isEmpty then
      filterLoop n targetQOS rest (i + 1) (filtered ++ [d])
    else filterLoop n targetQOS rest (i + 1) filtered

/-- The eligible set computed by `randomDialer` before the weighted draw. -/
def eligibleSet (dialers : List dialer) (targetQOS : Int) : List dialer :=
  let sorted := sortByQOS dialers
  filterLoop sorted.length targetQOS sorted 0 []

/-- Source variable `emptyDialers`. -/
def emptyDialers : List dialer := []

/-- Function `without(dialers, i)`: remove the element at index `i`
(the three slice cases of the source produce exactly these values). -/
def without (dialers : List dialer) (i : Nat) : List dialer :=
  if dialers.length == 1 then emptyDialers
  else if i == dialers.length - 1 then dialers.take i
  else dialers.take i ++ dialers.drop (i + 1)

/-- The index-search loop of `withoutDialer` (`for i, existing := range`),
with pointer equality `existing == d` modelled by `id` equality. -/
def indexOfDialer : List dialer → dialer → Option Nat
  | [], _ => none
  | e :: rest, d =>
    if e.id == d.id then some 0
    else (indexOfDialer rest d).map (· + 1)

/-- Function `withoutDialer(dialers, d)`: remove the first occurrence of
`d`; when `d` is not found the list is returned unchanged. -/
def withoutDialer (dialers : List dialer) (d : dialer) : List dialer :=
  match indexOfDialer dialers d with
  | some i => without dialers i
  | none => dialers

/-- The `totalWeights` accumulation loop of `randomDialer`. -/
def sumWeights : List dialer → Int
  | [] => 0
  | d :: rest => d.Weight + sumWeights rest

/-- Result of one selection round: `nil, nil` from an empty filtered set,
a chosen dialer together with the rest, or a Go panic. -/
inductive SelectResult where
  | noneEligible
  | chosen (d : dialer) (others : List dialer)
  | panicked (msg : String)
deriving DecidableEq, Repr

/-- The cumulative-weight walk at the end of `randomDialer`: `aw` is the
accumulated weight, `t` the random target; falling off the end is the
`panic("No dialer found!")` branch. -/
def pickLoop (t : Int) (sorted : List dialer) : List dialer → Int → SelectResult
  | [], _ => .panicked "No dialer found!"
  | d :: rest, aw =>
    if aw + d.Weight > t then .chosen d (withoutDialer sorted d)
    else pickLoop t sorted rest (aw + d.Weight)

/-- Function `randomDialer(dialers, targetQOS)`. The random source is an
oracle `draw`: `rand.Intn(totalWeights)` is `draw totalWeights` and, as in
Go's `rand.Intn`, panics when `totalWeights <= 0`. -/
def randomDialer (draw : Int → Int) (dialers : List dialer) (targetQOS : Int) : SelectResult :=
  let sorted := sortByQOS dialers
  let filtered := eligibleSet dialers targetQOS
  if filtered.isEmpty then .noneEligible
  else
    let totalWeights := sumWeights filtered
    if totalWeights ≤ 0 then .panicked "invalid argument to Intn"
    else pickLoop (draw totalWeights) sorted filtered 0

/-- C1: the claim says that when no active dialer meets `targetQOS` but at
least one dialer is active, the selector returns exactly the single
highest-QOS active dialer and never reports no-eligible-candidate. The
code tests the fallback condition `i == len(dialers)-1` against the full
sorted list, inactive dialers included: with an active dialer of QOS 1, an
inactive dialer of QOS 5 and `targetQOS = 10`, the inactive dialer
occupies the last position, the fallback never fires and the selector
returns `nil, nil` although an active dialer exists — contradicting the
source doc comment on `Dial` ("will use the highest QOS Dialer if none
meet targetQOS"). -/
theorem c1_fallback_lost_when_top_dialer_inactive :
    randomDialer (fun _ => 0)
        [{ id := 0, Weight := 1, QOS := 1, active := true },
         { id := 1, Weight := 1, QOS := 5, active := false }] 10
      = .noneEligible
      ∧ ({ id := 0, Weight := 1, QOS := 1, active := true } : dialer).isactive = true := by
  decide

/-- Outcome of the HTTP GET performed inside `dialer.defaultCheck`,
abstracting `withtimeout.Do(10*time.Second, ...)`: the request overran the
ten-second bound, failed with a network error, or delivered a response
with the given status code. -/
inductive httpOutcome where
  | timedOut
  | netError
  | response (status : Nat)
deriving DecidableEq, Repr

/-- `dialer.defaultCheck`: the inner closure returns `false` when
`client.Get` errors and `resp.StatusCode == 200` otherwise; the overall
result is `!timedOut && ok`. -/
def defaultCheck : httpOutcome → Bool
  | .timedOut => false
  | .netError => false
  | .response status => status == 200

/-- Modelled from the spec's words, for comparison with `defaultCheck`:
probe success is completion within the bound, no network error, and a
2xx status. -/
def specProbeSuccess : httpOutcome → Bool
  | .timedOut => false
  | .netError => false
  | .response status => 200 ≤ status && status < 300

/-- C9 counterexample: status 201 is a 2xx response delivered in time with
no network error, so the claim says the probe reports success; the code
compares the status against 200 exactly and reports failure. -/
theorem c9_status_201_fails_check :
    defaultCheck (.response 201) = false ∧ specProbeSuccess (.response 201) = true := by
  decide

/-- C9 amended: the default probe returns true iff the HTTP request made
through the strategy's own connect function completes within the
ten-second bound, without a network error, and with status exactly 200;
network error, a non-200 status, or timeout each make it return false. -/
theorem c9_amended_defaultCheck_iff (o : httpOutcome) :
    defaultCheck o = true ↔ o = .response 200 := by
  cases o with
  | timedOut => simp [defaultCheck]
  | netError => simp [defaultCheck]
  | response s => simp [defaultCheck]

/-- The cumulative-weight walk, started at accumulated weight `aw` with
the target `t` at or beyond `aw` but short of the remaining total, picks
the first dialer whose cumulative weight exceeds `t`. -/
theorem pickLoop_finds_first (t : Int) (sorted : List dialer) :
    ∀ (l : List dialer) (aw : Int), aw ≤ t → t < aw + sumWeights l →
      ∃ d pre post,
        pickLoop t sorted l aw = .chosen d (withoutDialer sorted d)
          ∧ l = pre ++ d :: post
          ∧ aw + sumWeights pre ≤ t
          ∧ t < aw + sumWeights pre + d.Weight := by
  intro l
  induction l with
  | nil =>
    intro aw h1 h2
    simp [sumWeights] at h2
    omega
  | cons d rest ih =>
    intro aw h1 h2
    by_cases hc : t < aw + d.Weight
    · refine ⟨d, [], rest, ?_, rfl, ?_, ?_⟩
      · simp [pickLoop, hc]
      · simpa [sumWeights] using h1
      · simp [sumWeights]
        omega
    · push_neg at hc
      have h2' : t < (aw + d.Weight) + sumWeights rest := by
        simp [sumWeights] at h2
        omega
      obtain ⟨d', pre', post', hpick, hsplit, hlo, hhi⟩ := ih (aw + d.Weight) hc h2'
      refine ⟨d', d :: pre', post', ?_, by simp [hsplit], ?_, ?_⟩
      · have hcc : ¬ aw + d.Weight > t := not_lt.mpr hc
        simpa [pickLoop, hcc] using hpick
      · simp [sumWeights]
        omega
      · simp [sumWeights]
        omega

/-- C7: with a non-empty eligible set of positive weights and a draw `t`
in `[0, totalWeight)`, the cumulative-weight walk returns the first dialer
whose cumulative weight exceeds `t` — the trailing
`panic("No dialer found!")` branch is unreachable — and a singleton
eligible set always yields its unique element. -/
theorem c7_weighted_walk_first_hit (sorted filtered : List dialer) (t : Int)
    (hne : filtered ≠ [])
    (hw : ∀ d ∈ filtered, 0 < d.Weight)
    (ht0 : 0 ≤ t) (htlt : t < sumWeights filtered) :
    (∃ d pre post,
        pickLoop t sorted filtered 0 = .chosen d (withoutDialer sorted d)
          ∧ filtered = pre ++ d :: post
          ∧ sumWeights pre ≤ t
          ∧ t < sumWeights pre + d.Weight)
      ∧ (∀ d0, filtered = [d0] →
          pickLoop t sorted filtered 0 = .chosen d0 (withoutDialer sorted d0)) := by
  constructor
  · obtain ⟨d, pre, post, hpick, hsplit, hlo, hhi⟩ :=
      pickLoop_finds_first t sorted filtered 0 ht0 (by simpa using htlt)
    exact ⟨d, pre, post, hpick, hsplit, by simpa using hlo, by simpa using hhi⟩
  · intro d0 h0
    subst h0
    have hc : t < d0.Weight := by
      simp [sumWeights] at htlt
      omega
    simp [pickLoop, hc]

theorem c7_weighted_walk_first_hit_witness :
    ([({ id := 0, Weight := 2, QOS := 3, active := true } : dialer),
      { id := 1, Weight := 3, QOS := 4, active := true }] ≠ ([] : List dialer))
      ∧ (∀ d ∈ [({ id := 0, Weight := 2, QOS := 3, active := true } : dialer),
                { id := 1, Weight := 3, QOS := 4, active := true }], 0 < d.Weight)
      ∧ (0 : Int) ≤ 2
      ∧ (2 : Int) < sumWeights
          [{ id := 0, Weight := 2, QOS := 3, active := true },
           { id := 1, Weight := 3, QOS := 4, active := true }]
      ∧ ((∃ d pre post,
            pickLoop 2
                [{ id := 0, Weight := 2, QOS := 3, active := true },
                 { id := 1, Weight := 3, QOS := 4, active := true }]
                [{ id := 0, Weight := 2, QOS := 3, active := true },
                 { id := 1, Weight := 3, QOS := 4, active := true }] 0
              = .chosen d (withoutDialer
                  [{ id := 0, Weight := 2, QOS := 3, active := true },
                   { id := 1, Weight := 3, QOS := 4, active := true }] d)
              ∧ [({ id := 0, Weight := 2, QOS := 3, active := true } : dialer),
                 { id := 1, Weight := 3, QOS := 4, active := true }] = pre ++ d :: post
              ∧ sumWeights pre ≤ 2
              ∧ (2 : Int) < sumWeights pre + d.Weight)
          ∧ (∀ d0, [({ id := 0, Weight := 2, QOS := 3, active := true } : dialer),
                    { id := 1, Weight := 3, QOS := 4, active := true }] = [d0] →
              pickLoop 2
                  [{ id := 0, Weight := 2, QOS := 3, active := true },
                   { id := 1, Weight := 3, QOS := 4, active := true }]
                  [{ id := 0, Weight := 2, QOS := 3, active := true },
                   { id := 1, Weight := 3, QOS := 4, active := true }] 0
                = .chosen d0 (withoutDialer
                    [{ id := 0, Weight := 2, QOS := 3, active := true },
                     { id := 1, Weight := 3, QOS := 4, active := true }] d0))) :=
  ⟨by decide, by decide, by decide, by decide,
    c7_weighted_walk_first_hit _ _ 2 (by decide) (by decide) (by decide) (by decide)⟩

/-- C8: when the weight invariant is violated and the eligible set's total
weight is zero or negative, `randomDialer` reaches `rand.Intn` with a
non-positive argument and panics — it neither divides by zero, silently
chooses a dialer, nor loops. -/
theorem c8_nonpositive_total_weight_panics (draw : Int → Int)
    (dialers : List dialer) (targetQOS : Int)
    (hne : eligibleSet dialers targetQOS ≠ [])
    (hw : sumWeights (eligibleSet dialers targetQOS) ≤ 0) :
    randomDialer draw dialers targetQOS = .panicked "invalid argument to Intn" := by
  have hF : (eligibleSet dialers targetQOS).isEmpty = false := by
    simpa [List.isEmpty_iff] using hne
  simp [randomDialer, hF, hw]

theorem c8_nonpositive_total_weight_panics_witness :
    (eligibleSet [{ id := 0, Weight := 0, QOS := 1, active := true }] 0 ≠ [])
      ∧ sumWeights (eligibleSet [{ id := 0, Weight := 0, QOS := 1, active := true }] 0) ≤ 0
      ∧ randomDialer (fun _ => 0) [{ id := 0, Weight := 0, QOS := 1, active := true }] 0
          = .panicked "invalid argument to Intn" :=
  ⟨by decide, by decide,
    c8_nonpositive_total_weight_panics (fun _ => 0)
      [{ id := 0, Weight := 0, QOS := 1, active := true }] 0 (by decide) (by decide)⟩

/-- Outcome of `Balancer.Dial`: an established connection (the value the
chosen dialer's `Dial` returned), an error return, or a Go panic
propagating out of `randomDialer`. -/
inductive DialOutcome where
  | conn (c : Nat)
  | err (msg : String)
  | panicked (msg : String)
deriving DecidableEq, Repr

/-- The retry loop of `Balancer.Dial`. `connect` is the oracle for the
per-dialer `d.Dial(network, addr)` call, indexed by dialer identity with
`network`/`addr` fixed for the call; `rng` supplies the `rand.Intn` draw
of each iteration (indexed by the remaining fuel, so successive
selections draw independently). Besides the outcome, the trace of dialer
identities on which `Dial` was invoked and the failure signals passed to
`onError` are returned. The fuel only bounds the recursion; any fuel
above the list length is enough (`dialLoop_classify`). -/
def dialLoop (rng : Nat → Int → Int) (connect : Nat → Except String Nat) (targetQOS : Int) :
    Nat → List dialer → DialOutcome × List Nat × List (Nat × String)
  | 0, _ => (.panicked "out of fuel", [], [])
  | fuel + 1, dialers =>
    if dialers.isEmpty then (.err "No dialers left to try", [], [])
    else
      match randomDialer (rng fuel) dialers targetQOS with
      | .noneEligible => (.err "No dialers left", [], [])
      | .panicked msg => (.panicked msg, [], [])
      | .chosen d others =>
        match connect d.id with
        | .ok c => (.conn c, [d.id], [])
        | .error e =>
          let r := dialLoop rng connect targetQOS fuel others
          (r.1, d.id :: r.2.1, (d.id, e) :: r.2.2)

/-- The `Balancer` struct. -/
structure Balancer where
  dialers : List dialer
deriving DecidableEq, Repr

/-- Method `Balancer.getDialers`: a copy of the dialer list. -/
def Balancer.getDialers (b : Balancer) : List dialer := b.dialers

/-- The wrapping loop of `New`: each configuration is wrapped in a fresh
`dialer` and started (`dl.start()` stores `active = 1`); the wrappers are
distinct pointers, modelled by consecutive `id`s. -/
def wrapDialers : Nat → List Dialer → List dialer
  | _, [] => []
  | i, c :: rest =>
    { id := i, Weight := c.Weight, QOS := c.QOS, active := true } :: wrapDialers (i + 1) rest

/-- Function `New(dialers ...*Dialer)`. -/
def New (ds : List Dialer) : Balancer :=
  { dialers := wrapDialers 0 ds }

/-- Method `Balancer.Dial(network, addr, targetQOS)`. -/
def Balancer.Dial (rng : Nat → Int → Int) (connect : Nat → Except String Nat)
    (b : Balancer) (targetQOS : Int) : DialOutcome × List Nat × List (Nat × String) :=
  dialLoop rng connect targetQOS (b.getDialers.length + 1) b.getDialers

/-- C10: a balancer built from an empty configuration list is a valid
(empty) balancer, and every `Dial` call on it returns the
"No dialers left to try" error at the top of the first loop iteration:
no selection happens, no dialer is attempted and no failure signal is
sent. -/
theorem c10_empty_balancer_dial_fails_fast (rng : Nat → Int → Int)
    (connect : Nat → Except String Nat) (targetQOS : Int) :
    New [] = { dialers := [] }
      ∧ Balancer.Dial rng connect (New []) targetQOS
          = (.err "No dialers left to try", [], []) := by
  constructor
  · rfl
  · rfl

/-- Every element the filtering loop returns comes from its accumulator
or from its input list. -/
theorem mem_filterLoop (n : Nat) (q : Int) :
    ∀ (l : List dialer) (i : Nat) (acc : List dialer) (x : dialer),
      x ∈ filterLoop n q l i acc → x ∈ acc ∨ x ∈ l := by
  intro l
  induction l with
  | nil =>
    intro i acc x hx
    exact Or.inl hx
  | cons d rest ih =>
    intro i acc x hx
    simp only [filterLoop] at hx
    split at hx
    · rcases ih _ _ _ hx with h | h
      · exact Or.inl h
      · exact Or.inr (List.mem_cons_of_mem _ h)
    · split at hx
      · rcases ih _ _ _ hx with h | h
        · rcases List.mem_append.mp h with h' | h'
          · exact Or.inl h'
          · simp only [List.mem_singleton] at h'
            exact Or.inr (by simp [h'])
        · exact Or.inr (List.mem_cons_of_mem _ h)
      · split at hx
        · rcases ih _ _ _ hx with h | h
          · rcases List.mem_append.mp h with h' | h'
            · exact Or.inl h'
            · simp only [List.mem_singleton] at h'
              exact Or.inr (by simp [h'])
          · exact Or.inr (List.mem_cons_of_mem _ h)
        · rcases ih _ _ _ hx with h | h
          · exact Or.inl h
          · exact Or.inr (List.mem_cons_of_mem _ h)

/-- A dialer chosen by the cumulative-weight walk is an element of the
walked list, and the returned remainder is `withoutDialer` of it. -/
theorem pickLoop_chosen (t : Int) (sorted : List dialer) :
    ∀ (l : List dialer) (aw : Int) (d : dialer) (others : List dialer),
      pickLoop t sorted l aw = .chosen d others →
        d ∈ l ∧ others = withoutDialer sorted d := by
  intro l
  induction l with
  | nil =>
    intro aw d others h
    exact SelectResult.noConfusion h
  | cons e rest ih =>
    intro aw d others h
    simp only [pickLoop] at h
    split at h
    · injection h with h1 h2
      subst h1
      subst h2
      exact ⟨List.mem_cons_self _ _, rfl⟩
    · obtain ⟨hmem, hoth⟩ := ih _ _ _ h
      exact ⟨List.mem_cons_of_mem _ hmem, hoth⟩

/-- A dialer chosen by `randomDialer` is an element of the sorted
snapshot, and the returned remainder is the snapshot without it. -/
theorem randomDialer_chosen (draw : Int → Int) (dialers : List dialer) (q : Int)
    (d : dialer) (others : List dialer)
    (h : randomDialer draw dialers q = .chosen d others) :
    d ∈ sortByQOS dialers ∧ others = withoutDialer (sortByQOS dialers) d := by
  simp only [randomDialer] at h
  split at h
  · exact SelectResult.noConfusion h
  · split at h
    · exact SelectResult.noConfusion h
    · obtain ⟨hmem, hoth⟩ := pickLoop_chosen _ _ _ _ _ _ h
      have hmem' := mem_filterLoop (sortByQOS dialers).length q (sortByQOS dialers) 0 [] d
        (by simpa [eligibleSet] using hmem)
      rcases hmem' with h' | h'
      · exact absurd h' (List.not_mem_nil d)
      · exact ⟨h', hoth⟩

/-- Removal of the first dialer carrying a given `id` — the value that
`withoutDialer` computes through `indexOfDialer` and `without`
(`withoutDialer_eq_removeFirstById`). -/
def removeFirstById (d : dialer) : List dialer → List dialer
  | [] => []
  | e :: rest => if e.id == d.id then rest else e :: removeFirstById d rest

theorem without_cons_zero (e : dialer) (rest : List dialer) :
    without (e :: rest) 0 = rest := by
  unfold without
  by_cases h1 : (e :: rest).length = 1
  · have hnil : rest = [] := by
      cases rest with
      | nil => rfl
      | cons f rest' => simp at h1
    subst hnil
    simp [emptyDialers]
  · have h2 : ¬ ((0 : Nat) = (e :: rest).length - 1) := by
      simp only [List.length_cons] at h1 ⊢
      omega
    simp only [beq_iff_eq, h1, h2, if_false, ite_false]
    simp

theorem without_cons_succ (e : dialer) (rest : List dialer) (j : Nat) (hj : j < rest.length) :
    without (e :: rest) (j + 1) = e :: without rest j := by
  unfold without
  simp only [beq_iff_eq, emptyDialers, List.length_cons]
  by_cases h1 : rest.length = 1
  · have hj0 : j = 0 := by omega
    subst hj0
    simp [h1]
  · by_cases h2 : j = rest.length - 1
    · have e1 : j + 1 = rest.length + 1 - 1 := by omega
      have ne1 : ¬ (rest.length + 1 = 1) := by omega
      simp [ne1, e1, h1, h2, List.take_succ_cons]
      omega
    · have ne1 : ¬ (rest.length + 1 = 1) := by omega
      have ne2 : ¬ (j + 1 = rest.length + 1 - 1) := by omega
      simp [ne1, ne2, h1, h2, List.take_succ_cons, List.drop_succ_cons]
      omega

theorem indexOfDialer_some_lt (d : dialer) :
    ∀ (l : List dialer) (i : Nat), indexOfDialer l d = some i → i < l.length := by
  intro l
  induction l with
  | nil =>
    intro i h
    exact Option.noConfusion h
  | cons e rest ih =>
    intro i h
    simp only [indexOfDialer] at h
    split at h
    · injection h with h0
      subst h0
      simp
    · cases hio : indexOfDialer rest d with
      | none =>
        rw [hio] at h
        exact Option.noConfusion h
      | some j =>
        rw [hio] at h
        injection h with h0
        subst h0
        have := ih j hio
        simp only [List.length_cons]
        omega

theorem removeFirstById_of_not_found (d : dialer) :
    ∀ l : List dialer, indexOfDialer l d = none → removeFirstById d l = l := by
  intro l
  induction l with
  | nil =>
    intro _
    rfl
  | cons e rest ih =>
    intro h
    simp only [indexOfDialer] at h
    split at h
    · exact Option.noConfusion h
    · cases hio : indexOfDialer rest d with
      | none =>
        rename_i hid
        simp only [removeFirstById]
        rw [if_neg hid, ih hio]
      | some j =>
        rw [hio] at h
        exact Option.noConfusion h

/-- `withoutDialer` removes exactly the first occurrence of the dialer's
identity. -/
theorem withoutDialer_eq_removeFirstById (d : dialer) :
    ∀ l : List dialer, withoutDialer l d = removeFirstById d l := by
  intro l
  induction l with
  | nil => rfl
  | cons e rest ih =>
    by_cases hid : (e.id == d.id) = true
    · unfold withoutDialer
      simp only [indexOfDialer, hid, if_true]
      simp only [removeFirstById, hid, if_true]
      exact without_cons_zero e rest
    · unfold withoutDialer
      simp only [indexOfDialer, hid, if_false, Bool.false_eq_true]
      cases hio : indexOfDialer rest d with
      | none =>
        simp only [Option.map_none']
        simp only [removeFirstById, hid, if_false, Bool.false_eq_true]
        rw [removeFirstById_of_not_found d rest hio]
      | some j =>
        simp only [Option.map_some']
        have hjl : j < rest.length := indexOfDialer_some_lt d rest j hio
        rw [without_cons_succ e rest j hjl]
        simp only [removeFirstById, hid, if_false, Bool.false_eq_true]
        have hwr : withoutDialer rest d = without rest j := by
          unfold withoutDialer
          rw [hio]
        rw [← hwr, ih]

theorem mem_removeFirstById (d : dialer) :
    ∀ (l : List dialer) (x : dialer), x ∈ removeFirstById d l → x ∈ l := by
  intro l
  induction l with
  | nil =>
    intro x h
    exact h
  | cons e rest ih =>
    intro x h
    by_cases hid : (e.id == d.id) = true
    · simp only [removeFirstById, hid, if_true] at h
      exact List.mem_cons_of_mem _ h
    · simp only [removeFirstById, hid, if_false, Bool.false_eq_true] at h
      rcases List.mem_cons.mp h with h' | h'
      · exact h' ▸ List.mem_cons_self _ _
      · exact List.mem_cons_of_mem _ (ih _ h')

theorem length_removeFirstById (d : dialer) :
    ∀ l : List dialer, (∃ e ∈ l, e.id = d.id) →
      (removeFirstById d l).length + 1 = l.length := by
  intro l
  induction l with
  | nil =>
    intro h
    simp at h
  | cons e rest ih =>
    intro h
    by_cases hid : (e.id == d.id) = true
    · simp only [removeFirstById, hid, if_true, List.length_cons]
    · have hne : ¬ (e.id = d.id) := by
        simpa using hid
      obtain ⟨f, hf, hfid⟩ := h
      rcases List.mem_cons.mp hf with rfl | hf'
      · exact absurd hfid hne
      · simp only [removeFirstById, hid, if_false, Bool.false_eq_true, List.length_cons]
        have := ih ⟨f, hf', hfid⟩
        omega

theorem ids_removeFirstById_subset (d : dialer) (l : List dialer) :
    ∀ x, x ∈ (removeFirstById d l).map dialer.id → x ∈ l.map dialer.id := by
  intro x hx
  simp only [List.mem_map] at hx ⊢
  obtain ⟨y, hy, rfl⟩ := hx
  exact ⟨y, mem_removeFirstById d l y hy, rfl⟩

theorem removeFirstById_ids_nodup (d : dialer) :
    ∀ l : List dialer, (l.map dialer.id).Nodup →
      ((removeFirstById d l).map dialer.id).Nodup
        ∧ (d.id ∈ l.map dialer.id → d.id ∉ (removeFirstById d l).map dialer.id) := by
  intro l
  induction l with
  | nil =>
    intro _
    exact ⟨List.nodup_nil, by simp [removeFirstById]⟩
  | cons e rest ih =>
    intro h
    simp only [List.map_cons, List.nodup_cons] at h
    obtain ⟨hnotin, hnd⟩ := h
    by_cases hid : (e.id == d.id) = true
    · have heq : e.id = d.id := by simpa using hid
      refine ⟨by simpa [removeFirstById, hid] using hnd, ?_⟩
      intro _
      rw [removeFirstById, if_pos hid]
      rw [← heq]
      exact hnotin
    · have hne : ¬ (e.id = d.id) := by simpa using hid
      obtain ⟨ihnd, ihnotin⟩ := ih hnd
      constructor
      · simp only [removeFirstById, hid, if_false, Bool.false_eq_true, List.map_cons,
          List.nodup_cons]
        refine ⟨?_, ihnd⟩
        intro hmem
        exact hnotin (ids_removeFirstById_subset d rest e.id hmem)
      · intro hdl
        simp only [List.map_cons, List.mem_cons] at hdl
        rcases hdl with hdl | hdl
        · exact absurd hdl.symm hne
        · simp only [removeFirstById, hid, if_false, Bool.false_eq_true, List.map_cons,
            List.mem_cons]
          rintro (hc | hc)
          · exact hne hc.symm
          · exact ihnotin hdl hc

theorem sumWeights_pos :
    ∀ l : List dialer, l ≠ [] → (∀ d ∈ l, 0 < d.Weight) → 0 < sumWeights l := by
  intro l
  induction l with
  | nil =>
    intro h
    exact absurd rfl h
  | cons d rest ih =>
    intro _ hw
    by_cases hr : rest = []
    · subst hr
      simpa [sumWeights] using hw d (by simp)
    · have h1 := hw d (by simp)
      have h2 := ih hr (fun e he => hw e (by simp [he]))
      simp only [sumWeights]
      omega

/-- Every element of the eligible set is a dialer of the input list. -/
theorem mem_eligibleSet (dialers : List dialer) (q : Int) :
    ∀ x ∈ eligibleSet dialers q, x ∈ dialers := by
  intro x hx
  rcases mem_filterLoop (sortByQOS dialers).length q (sortByQOS dialers) 0 [] x
      (by simpa [eligibleSet] using hx) with h | h
  · exact absurd h (List.not_mem_nil x)
  · exact ((List.perm_insertionSort _ dialers).mem_iff).mp h

/-- With positive weights and an in-range random draw, `randomDialer`
never panics: its result is `noneEligible` or a chosen dialer. -/
theorem randomDialer_not_panicked (draw : Int → Int) (dialers : List dialer) (q : Int)
    (hw : ∀ d ∈ dialers, 0 < d.Weight)
    (hdraw : ∀ n : Int, 0 < n → 0 ≤ draw n ∧ draw n < n) (msg : String) :
    randomDialer draw dialers q ≠ .panicked msg := by
  intro hcontra
  by_cases hFe : (eligibleSet dialers q).isEmpty = true
  · simp [randomDialer, hFe] at hcontra
  · have hne : eligibleSet dialers q ≠ [] := by
      intro h
      exact hFe (by rw [h]; rfl)
    have hFw : ∀ d ∈ eligibleSet dialers q, 0 < d.Weight :=
      fun d hd => hw d (mem_eligibleSet dialers q d hd)
    have htot : 0 < sumWeights (eligibleSet dialers q) := sumWeights_pos _ hne hFw
    obtain ⟨h0, hlt⟩ := hdraw _ htot
    obtain ⟨d, pre, post, hpick, _, _, _⟩ :=
      pickLoop_finds_first (draw (sumWeights (eligibleSet dialers q))) (sortByQOS dialers)
        (eligibleSet dialers q) 0 h0 (by simpa using hlt)
    rw [randomDialer] at hcontra
    simp only [hFe, if_false, Bool.false_eq_true] at hcontra
    rw [if_neg (by omega)] at hcontra
    rw [hpick] at hcontra
    exact SelectResult.noConfusion hcontra

/-- The remainder returned with a chosen dialer is strictly shorter than
the input and contains only dialers of the input. -/
theorem randomDialer_chosen_others (draw : Int → Int) (dialers : List dialer) (q : Int)
    (d : dialer) (others : List dialer)
    (h : randomDialer draw dialers q = .chosen d others) :
    others.length < dialers.length ∧ ∀ x ∈ others, x ∈ dialers := by
  obtain ⟨hmem, hoth⟩ := randomDialer_chosen draw dialers q d others h
  rw [withoutDialer_eq_removeFirstById] at hoth
  have hlensort : (sortByQOS dialers).length = dialers.length :=
    (List.perm_insertionSort _ dialers).length_eq
  constructor
  · have hlen := length_removeFirstById d (sortByQOS dialers) ⟨d, hmem, rfl⟩
    rw [← hoth] at hlen
    omega
  · intro x hx
    rw [hoth] at hx
    exact ((List.perm_insertionSort _ dialers).mem_iff).mp (mem_removeFirstById d _ x hx)

theorem mem_wrapDialers_id :
    ∀ (ds : List Dialer) (i : Nat) (x : dialer),
      x ∈ wrapDialers i ds → i ≤ x.id ∧ x.id < i + ds.length := by
  intro ds
  induction ds with
  | nil =>
    intro i x h
    exact absurd h (List.not_mem_nil x)
  | cons c rest ih =>
    intro i x h
    simp only [wrapDialers] at h
    rcases List.mem_cons.mp h with rfl | h'
    · simp
    · have := ih (i + 1) x h'
      simp only [List.length_cons]
      omega

theorem mem_wrapDialers_weight :
    ∀ (ds : List Dialer) (i : Nat) (x : dialer),
      x ∈ wrapDialers i ds → ∃ c ∈ ds, x.Weight = c.Weight := by
  intro ds
  induction ds with
  | nil =>
    intro i x h
    exact absurd h (List.not_mem_nil x)
  | cons c rest ih =>
    intro i x h
    simp only [wrapDialers] at h
    rcases List.mem_cons.mp h with rfl | h'
    · exact ⟨c, by simp, rfl⟩
    · obtain ⟨c', hc', hwx⟩ := ih (i + 1) x h'
      exact ⟨c', List.mem_cons_of_mem _ hc', hwx⟩

theorem wrapDialers_ids_nodup :
    ∀ (ds : List Dialer) (i : Nat), ((wrapDialers i ds).map dialer.id).Nodup := by
  intro ds
  induction ds with
  | nil =>
    intro i
    exact List.nodup_nil
  | cons c rest ih =>
    intro i
    simp only [wrapDialers, List.map_cons, List.nodup_cons]
    refine ⟨?_, ih (i + 1)⟩
    intro hmem
    simp only [List.mem_map] at hmem
    obtain ⟨y, hy, hid⟩ := hmem
    have := mem_wrapDialers_id rest (i + 1) y hy
    omega

/-- Within one run of the dial loop, the attempted dialer identities are
pairwise distinct and all come from the working list. -/
theorem dialLoop_attempts_distinct (rng : Nat → Int → Int) (connect : Nat → Except String Nat)
    (q : Int) :
    ∀ (fuel : Nat) (dialers : List dialer), (dialers.map dialer.id).Nodup →
      (dialLoop rng connect q fuel dialers).2.1.Nodup
        ∧ ∀ i ∈ (dialLoop rng connect q fuel dialers).2.1, i ∈ dialers.map dialer.id := by
  intro fuel
  induction fuel with
  | zero =>
    intro dialers _
    exact ⟨List.nodup_nil, fun i hi => absurd hi (List.not_mem_nil i)⟩
  | succ fuel ih =>
    intro dialers hnd
    by_cases he : dialers.isEmpty = true
    · constructor
      · simp [dialLoop, he]
      · intro i hi
        simp [dialLoop, he] at hi
    · cases hsel : randomDialer (rng fuel) dialers q with
      | noneEligible =>
        constructor
        · simp [dialLoop, he, hsel]
        · intro i hi
          simp [dialLoop, he, hsel] at hi
      | panicked msg =>
        constructor
        · simp [dialLoop, he, hsel]
        · intro i hi
          simp [dialLoop, he, hsel] at hi
      | chosen d others =>
        obtain ⟨hmem, hoth⟩ := randomDialer_chosen _ _ _ _ _ hsel
        have hperm : ((sortByQOS dialers).map dialer.id).Perm (dialers.map dialer.id) :=
          (List.perm_insertionSort _ dialers).map dialer.id
        have hndS : ((sortByQOS dialers).map dialer.id).Nodup := hperm.nodup_iff.mpr hnd
        have hdid : d.id ∈ (sortByQOS dialers).map dialer.id :=
          List.mem_map_of_mem dialer.id hmem
        have hdid' : d.id ∈ dialers.map dialer.id := hperm.mem_iff.mp hdid
        have hothids := removeFirstById_ids_nodup d (sortByQOS dialers) hndS
        have hothnd : (others.map dialer.id).Nodup := by
          rw [hoth, withoutDialer_eq_removeFirstById]
          exact hothids.1
        have hothnotin : d.id ∉ others.map dialer.id := by
          rw [hoth, withoutDialer_eq_removeFirstById]
          exact hothids.2 hdid
        have hothsub : ∀ x ∈ others.map dialer.id, x ∈ dialers.map dialer.id := by
          intro x hx
          rw [hoth, withoutDialer_eq_removeFirstById] at hx
          exact hperm.mem_iff.mp (ids_removeFirstById_subset d _ x hx)
        cases hcon : connect d.id with
        | ok c =>
          constructor
          · simp [dialLoop, he, hsel, hcon]
          · intro i hi
            simp [dialLoop, he, hsel, hcon] at hi
            subst hi
            exact hdid'
        | error e =>
          obtain ⟨ihnd, ihsub⟩ := ih others hothnd
          constructor
          · simp only [dialLoop, he, hsel, hcon]
            simp only [Bool.false_eq_true, if_false]
            refine List.nodup_cons.mpr ⟨?_, ihnd⟩
            intro hin
            exact hothnotin (ihsub _ hin)
          · intro i hi
            simp only [dialLoop, he, hsel, hcon, Bool.false_eq_true, if_false,
              List.mem_cons] at hi
            rcases hi with rfl | hi'
            · exact hdid'
            · exact hothsub _ (ihsub i hi')

/-- With positive weights and an in-range random oracle, the dial loop
with fuel above the list length returns a connection or one of the two
exhaustion errors — never a panic, a fuel exhaustion, or a transport
error. -/
theorem dialLoop_classify (rng : Nat → Int → Int) (connect : Nat → Except String Nat) (q : Int) :
    ∀ (fuel : Nat) (dialers : List dialer),
      dialers.length < fuel →
      (∀ d ∈ dialers, 0 < d.Weight) →
      (∀ k (n : Int), 0 < n → 0 ≤ rng k n ∧ rng k n < n) →
      ((∃ c, (dialLoop rng connect q fuel dialers).1 = .conn c)
        ∨ (dialLoop rng connect q fuel dialers).1 = .err "No dialers left to try"
        ∨ (dialLoop rng connect q fuel dialers).1 = .err "No dialers left") := by
  intro fuel
  induction fuel with
  | zero =>
    intro dialers hlen hw hrng
    omega
  | succ fuel ih =>
    intro dialers hlen hw hrng
    by_cases he : dialers.isEmpty = true
    · right
      left
      simp [dialLoop, he]
    · cases hsel : randomDialer (rng fuel) dialers q with
      | noneEligible =>
        right
        right
        simp [dialLoop, he, hsel]
      | panicked msg =>
        exact absurd hsel (randomDialer_not_panicked (rng fuel) dialers q hw (hrng fuel) msg)
      | chosen d others =>
        obtain ⟨hlt, hsub⟩ := randomDialer_chosen_others _ _ _ _ _ hsel
        cases hcon : connect d.id with
        | ok c =>
          left
          exact ⟨c, by simp [dialLoop, he, hsel, hcon]⟩
        | error e =>
          have hw' : ∀ x ∈ others, 0 < x.Weight := fun x hx => hw x (hsub x hx)
          rcases ih others (by omega) hw' hrng with ⟨c, hc⟩ | hc | hc
          · left
            refine ⟨c, ?_⟩
            simpa [dialLoop, he, hsel, hcon] using hc
          · right
            left
            simpa [dialLoop, he, hsel, hcon] using hc
          · right
            right
            simpa [dialLoop, he, hsel, hcon] using hc

/-- The failure signals recorded by the dial loop are exactly the failed
attempts, each paired with the transport error that `d.Dial` produced. -/
theorem dialLoop_signals (rng : Nat → Int → Int) (connect : Nat → Except String Nat) (q : Int) :
    ∀ (fuel : Nat) (dialers : List dialer),
      (dialLoop rng connect q fuel dialers).2.2
        = (dialLoop rng connect q fuel dialers).2.1.filterMap
            (fun i => match connect i with
              | .ok _ => none
              | .error e => some (i, e)) := by
  intro fuel
  induction fuel with
  | zero =>
    intro dialers
    rfl
  | succ fuel ih =>
    intro dialers
    by_cases he : dialers.isEmpty = true
    · simp [dialLoop, he]
    · cases hsel : randomDialer (rng fuel) dialers q with
      | noneEligible => simp [dialLoop, he, hsel]
      | panicked msg => simp [dialLoop, he, hsel]
      | chosen d others =>
        cases hcon : connect d.id with
        | ok c => simp [dialLoop, he, hsel, hcon]
        | error e =>
          simp [dialLoop, he, hsel, hcon, List.filterMap_cons, ih others]

/-- C5: within a single `Dial` call on a freshly constructed balancer,
each configured strategy's `Dial` function is invoked at most once — the
attempt trace has no duplicate identity — and every attempted identity
belongs to the balancer's registry: the selector hands back the working
set minus the chosen dialer and the orchestrator continues only with that
remainder. -/
theorem c5_no_strategy_retried (rng : Nat → Int → Int) (connect : Nat → Except String Nat)
    (configs : List Dialer) (targetQOS : Int) :
    ((New configs).Dial rng connect targetQOS).2.1.Nodup
      ∧ ∀ i ∈ ((New configs).Dial rng connect targetQOS).2.1,
          i ∈ (New configs).dialers.map dialer.id :=
  dialLoop_attempts_distinct rng connect targetQOS
    ((New configs).getDialers.length + 1) (New configs).getDialers
    (wrapDialers_ids_nodup configs 0)

/-- C6: with the `weight > 0` invariant and an in-range random oracle,
every `Dial` call returns a connection or exactly one of the two
exhaustion errors, "No dialers left to try" (working set exhausted) or
"No dialers left" (selector found nothing eligible) — a per-attempt
transport error is never the returned value — and every failed attempt is
consumed internally, converted into a failure signal `(id, error)` handed
to that dialer's monitor. -/
theorem c6_dial_errors_are_exhaustion_errors (rng : Nat → Int → Int)
    (connect : Nat → Except String Nat) (configs : List Dialer) (targetQOS : Int)
    (hw : ∀ c ∈ configs, 0 < c.Weight)
    (hrng : ∀ k (n : Int), 0 < n → 0 ≤ rng k n ∧ rng k n < n) :
    ((∃ c, ((New configs).Dial rng connect targetQOS).1 = .conn c)
      ∨ ((New configs).Dial rng connect targetQOS).1 = .err "No dialers left to try"
      ∨ ((New configs).Dial rng connect targetQOS).1 = .err "No dialers left")
    ∧ ((New configs).Dial rng connect targetQOS).2.2
        = ((New configs).Dial rng connect targetQOS).2.1.filterMap
            (fun i => match connect i with
              | .ok _ => none
              | .error e => some (i, e)) := by
  have hwd : ∀ d ∈ (New configs).getDialers, 0 < d.Weight := by
    intro d hd
    obtain ⟨c, hc, hcw⟩ := mem_wrapDialers_weight configs 0 d hd
    rw [hcw]
    exact hw c hc
  constructor
  · exact dialLoop_classify rng connect targetQOS
      ((New configs).getDialers.length + 1) (New configs).getDialers
      (Nat.lt_succ_self _) hwd hrng
  · exact dialLoop_signals rng connect targetQOS
      ((New configs).getDialers.length + 1) (New configs).getDialers

theorem c6_dial_errors_are_exhaustion_errors_witness :
    (∀ c ∈ [({ Weight := 1, QOS := 0 } : Dialer)], 0 < c.Weight)
      ∧ (((∃ c, ((New [{ Weight := 1, QOS := 0 }]).Dial (fun _ _ => 0)
              (fun _ => .error "boom") 0).1 = .conn c)
          ∨ ((New [{ Weight := 1, QOS := 0 }]).Dial (fun _ _ => 0)
              (fun _ => .error "boom") 0).1 = .err "No dialers left to try"
          ∨ ((New [{ Weight := 1, QOS := 0 }]).Dial (fun _ _ => 0)
              (fun _ => .error "boom") 0).1 = .err "No dialers left")
        ∧ ((New [{ Weight := 1, QOS := 0 }]).Dial (fun _ _ => 0)
              (fun _ => .error "boom") 0).2.2
            = ((New [{ Weight := 1, QOS := 0 }]).Dial (fun _ _ => 0)
                (fun _ => .error "boom") 0).2.1.filterMap
                (fun i => match (fun _ => (.error "boom" : Except String Nat)) i with
                  | .ok _ => none
                  | .error e => some (i, e))) :=
  ⟨by decide,
    c6_dial_errors_are_exhaustion_errors (fun _ _ => 0) (fun _ => .error "boom")
      [{ Weight := 1, QOS := 0 }] 0 (by decide)
      (fun k n hn => ⟨le_refl 0, hn⟩)⟩
